import Mathlib

/-!
Verification of the Petite Treats bakery storefront (Express API in `app.js`,
browser scripts `cart.js`, the products page script, the featured/home page
script) against its natural-language specification.

JavaScript strings are modelled as lists of characters (`JStr`); JavaScript
numbers appearing as prices are modelled as exact rationals (`Rat`), so the
floating-point representation itself is not modelled.  Fallible steps
(database queries, fetches) are modelled with `Option`/`Except` or explicit
outcome parameters.  MySQL string comparison and `LIKE` use the default
case-insensitive collation, so equality and substring tests are modelled on
lowercased strings; `LIKE` wildcard metacharacters inside tokens are not
modelled (no seeded name or filter token contains them).
-/

/-- A JavaScript string, modelled as its list of characters. -/
abbrev JStr := List Char

/-- Coerce a Lean string literal to the `JStr` model. -/
def S (s : String) : JStr := s.data

/-- JavaScript `String.prototype.toLowerCase` (ASCII model). -/
def lowerStr (s : JStr) : JStr := s.map Char.toLower

/-- JavaScript `str.split(sep)` for a one-character separator `sep`.
`"".split(sep)` is `[""]`, and consecutive separators yield empty pieces,
exactly as in JavaScript. -/
def splitOnChar (sep : Char) : JStr → List JStr
  | [] => [[]]
  | c :: cs =>
    match splitOnChar sep cs with
    | [] => [[]]
    | w :: ws => if c = sep then [] :: w :: ws else (c :: w) :: ws

/-- JavaScript `parts.join(sep)` for a one-character separator. -/
def joinChar (sep : Char) : List JStr → JStr
  | [] => []
  | [w] => w
  | w :: ws => w ++ sep :: joinChar sep ws

/-- `formatDashes` from `app.js` (also duplicated in the browser scripts):
splits a name on spaces, lowercases every word and joins with dashes. -/
def formatDashes (name : JStr) : JStr :=
  joinChar '-' ((splitOnChar ' ' name).map lowerStr)

/-- Capitalisation of one word: `word.charAt(0).toUpperCase() + word.slice(1)`. -/
def capitalizeWord : JStr → JStr
  | [] => []
  | c :: cs => Char.toUpper c :: cs

/-- `formatTitleCase` from `app.js`: splits a dash-separated name on dashes,
capitalises the first character of each word and joins with spaces. -/
def formatTitleCase (dirName : JStr) : JStr :=
  joinChar ' ' ((splitOnChar '-' dirName).map capitalizeWord)

/-- A row of the `products` table (`setup.sql`): name (primary key), price,
description, image. -/
structure ProductRow where
  name : JStr
  price : Rat
  description : JStr
  image : JStr
deriving DecidableEq

/-- MySQL `name LIKE '%w%'` with the default case-insensitive collation:
`w` occurs (case-insensitively) as a contiguous substring of `name`. -/
def likeContains (name w : JStr) : Bool :=
  decide ((lowerStr w) <:+: (lowerStr name))

/-- Boolean linear-order comparison used to model `ORDER BY`:
lexicographic on characters. -/
def lexLe : JStr → JStr → Bool
  | [], _ => true
  | _ :: _, [] => false
  | a :: as, b :: bs => if a = b then lexLe as bs else decide (a < b)

/-- Insert into a sorted list (used by `sortByLe`). -/
def insertSorted (le : α → α → Bool) (a : α) : List α → List α
  | [] => [a]
  | b :: bs => if le a b then a :: b :: bs else b :: insertSorted le a bs

/-- Model of the SQL `ORDER BY` clause: a sort of the result rows by a
boolean comparison. -/
def sortByLe (le : α → α → Bool) : List α → List α
  | [] => []
  | a :: as => insertSorted le a (sortByLe le as)

/-- `getProductsListFiltered` from `app.js`: builds
`SELECT * FROM products WHERE name LIKE '%w1%' AND ... AND name LIKE '%wk%'`
from the dash-separated tokens of `contains`, then appends
`ORDER BY name|price` and `asc|desc` according to `sort` and `direction`.
The `WHERE` clause keeps the rows whose name matches every token; the
`ORDER BY` clause is modelled as a sort by the corresponding comparison
(by lowercased name under the case-insensitive collation, or by price),
flipped for `desc`. -/
def getProductsListFiltered (db : List ProductRow) (contains sort direction : JStr) :
    List ProductRow :=
  let words := splitOnChar '-' contains
  let rows := db.filter (fun p => words.all (fun w => likeContains p.name w))
  let le : ProductRow → ProductRow → Bool :=
    if sort = S "price" then fun a b => decide (a.price ≤ b.price)
    else fun a b => lexLe (lowerStr a.name) (lowerStr b.name)
  let le' : ProductRow → ProductRow → Bool :=
    if direction = S "desc" then fun a b => le b a else le
  if sort = S "name" ∨ sort = S "price" then sortByLe le' rows else rows

theorem mem_insertSorted (le : α → α → Bool) (a x : α) (l : List α) :
    x ∈ insertSorted le a l ↔ x = a ∨ x ∈ l := by
  induction l with
  | nil => simp [insertSorted]
  | cons b bs ih =>
    cases hle : le a b with
    | true =>
      simp only [insertSorted, hle, if_true, List.mem_cons]
    | false =>
      simp only [insertSorted, hle, Bool.false_eq_true, if_false, List.mem_cons, ih]
      tauto

theorem mem_sortByLe (le : α → α → Bool) (x : α) (l : List α) :
    x ∈ sortByLe le l ↔ x ∈ l := by
  induction l with
  | nil => simp [sortByLe]
  | cons a as ih => simp [sortByLe, mem_insertSorted, ih]

/-- The empty filter splits into the single empty token. -/
theorem splitOnChar_nil (sep : Char) : splitOnChar sep [] = [[]] := rfl

/-- C1: for every call to the product list query with a `contains` filter,
the filter is split on dashes into tokens and a product is returned iff every
token occurs, case-insensitively, as a substring of the product name; the
empty filter returns every product of the catalog. -/
theorem products_filter_mem_iff (db : List ProductRow)
    (contains sort direction : JStr) (p : ProductRow) :
    (p ∈ getProductsListFiltered db contains sort direction ↔
      p ∈ db ∧ ∀ w ∈ splitOnChar '-' contains, (lowerStr w) <:+: (lowerStr p.name)) ∧
    (contains = [] →
      (p ∈ getProductsListFiltered db contains sort direction ↔ p ∈ db)) := by
  have base : p ∈ getProductsListFiltered db contains sort direction ↔
      p ∈ db ∧ ∀ w ∈ splitOnChar '-' contains, (lowerStr w) <:+: (lowerStr p.name) := by
    unfold getProductsListFiltered
    by_cases h : sort = S "name" ∨ sort = S "price"
    · simp only [h, if_true, mem_sortByLe, List.mem_filter, List.all_eq_true,
        likeContains, decide_eq_true_eq]
    · simp only [h, if_false, List.mem_filter, List.all_eq_true,
        likeContains, decide_eq_true_eq]
  refine ⟨base, fun hc => ?_⟩
  subst hc
  rw [base]
  simp [splitOnChar_nil, lowerStr]

/-- Witness for C1 on the seeded catalog rows: the filter `"mini-palmiers"`
returns Mini Palmiers, and the empty filter returns everything. -/
theorem products_filter_mem_iff_inst :
    (⟨S "Mini Palmiers", 8, S "d", S "i"⟩ : ProductRow) ∈
      getProductsListFiltered
        [⟨S "Cheesecake", 7, S "d", S "i"⟩, ⟨S "Mini Palmiers", 8, S "d", S "i"⟩]
        (S "mini-palmiers") (S "name") (S "asc") ∧
    (⟨S "Cheesecake", 7, S "d", S "i"⟩ : ProductRow) ∈
      getProductsListFiltered
        [⟨S "Cheesecake", 7, S "d", S "i"⟩, ⟨S "Mini Palmiers", 8, S "d", S "i"⟩]
        [] (S "name") (S "asc") := by
  constructor
  · exact (products_filter_mem_iff
      [⟨S "Cheesecake", 7, S "d", S "i"⟩, ⟨S "Mini Palmiers", 8, S "d", S "i"⟩]
      (S "mini-palmiers") (S "name") (S "asc")
      ⟨S "Mini Palmiers", 8, S "d", S "i"⟩).1.mpr (by decide)
  · exact ((products_filter_mem_iff
      [⟨S "Cheesecake", 7, S "d", S "i"⟩, ⟨S "Mini Palmiers", 8, S "d", S "i"⟩]
      [] (S "name") (S "asc")
      ⟨S "Cheesecake", 7, S "d", S "i"⟩).2 rfl).mpr (by decide)

/-- `SERVER_ERROR` message constant of `app.js`. -/
def SERVER_ERROR_MSG : JStr := S "The server encountered an error, please try again later."

/-- `PRODUCT_404_ERR` message constant of `app.js`. -/
def PRODUCT_404_MSG : JStr := S "Product not found"

/-- `INVALID_QUERY_ERR` message constant of `app.js`. -/
def INVALID_QUERY_MSG : JStr := S "Invalid query parameter(s)"

/-- Error message of `validateDescParams` for missing POST parameters. -/
def DESC_PARAMS_MSG : JStr :=
  S "Missing one or more of the required parameters: product, flavor, box."

/-- Error message of `validateForm` for missing POST parameters. -/
def FORM_PARAMS_MSG : JStr :=
  S "Missing one or more of the required parameters: name, email and message."

/-- A response body: either plain text or a JSON array of products. -/
inductive RespBody where
  | text (s : JStr)
  | jsonProducts (ps : List ProductRow)
deriving DecidableEq

/-- An HTTP response: status code and body. -/
structure Response where
  status : Nat
  body : RespBody
deriving DecidableEq

/-- The raw query string of `GET /products`; `none` is an absent parameter. -/
structure ProductsQuery where
  contains : Option JStr
  sort : Option JStr
  direction : Option JStr

/-- JavaScript falsiness of an optional string: absent or empty. -/
def falsy (o : Option JStr) : Bool :=
  match o with
  | none => true
  | some s => s.isEmpty

/-- The `if (!req.query.x) req.query.x = dfl` defaulting step of
`validateProductsQuery`. -/
def effectiveParam (o : Option JStr) (dfl : JStr) : JStr :=
  if falsy o then dfl else o.getD dfl

/-- The query parameters after `validateProductsQuery` has rewritten them. -/
structure ValidatedQuery where
  contains : JStr
  sort : JStr
  direction : JStr
deriving DecidableEq

/-- `validateProductsQuery` from `app.js`: defaults falsy parameters to
`""`/`"name"`/`"asc"`, rewrites `contains` with `formatDashes` and lowercases
`sort` and `direction`, then rejects (400) unless
`sort ∈ {name, price}` and `direction ∈ {asc, desc}` — the boolean condition
mirrors `sort != "name" && sort != "price" || direction != "asc" &&
direction != "desc"`. -/
def validateProductsQuery (q : ProductsQuery) : Option ValidatedQuery :=
  let contains := formatDashes (effectiveParam q.contains [])
  let sort := lowerStr (effectiveParam q.sort (S "name"))
  let direction := lowerStr (effectiveParam q.direction (S "asc"))
  if !decide (sort = S "name") && !decide (sort = S "price") ||
     !decide (direction = S "asc") && !decide (direction = S "desc")
  then none
  else some ⟨contains, sort, direction⟩

/-- The `GET /products` route: the validation middleware either rejects with
400 and the invalid-query message (the handler, and hence the database query,
is never reached), or the handler runs `getProductsListFiltered` on the
rewritten parameters and returns it as JSON. -/
def productsEndpoint (db : List ProductRow) (q : ProductsQuery) : Response :=
  match validateProductsQuery q with
  | none => ⟨400, .text INVALID_QUERY_MSG⟩
  | some v => ⟨200, .jsonProducts (getProductsListFiltered db v.contains v.sort v.direction)⟩

/-- C5: `GET /products` validation accepts iff, after defaulting missing
(falsy) parameters to `name`/`asc` and lowercasing, `sort` is `name` or
`price` and `direction` is `asc` or `desc`; on any malformed value the
endpoint responds 400 with the invalid-query message and the response is
independent of the catalog, i.e. the product query is never executed. -/
theorem products_query_validation (q : ProductsQuery) (db db' : List ProductRow) :
    ((validateProductsQuery q).isSome ↔
      ((lowerStr (effectiveParam q.sort (S "name")) = S "name" ∨
        lowerStr (effectiveParam q.sort (S "name")) = S "price") ∧
       (lowerStr (effectiveParam q.direction (S "asc")) = S "asc" ∨
        lowerStr (effectiveParam q.direction (S "asc")) = S "desc"))) ∧
    (validateProductsQuery q = none →
      productsEndpoint db q = ⟨400, .text INVALID_QUERY_MSG⟩ ∧
      productsEndpoint db q = productsEndpoint db' q) := by
  constructor
  · unfold validateProductsQuery
    dsimp only
    by_cases hs1 : lowerStr (effectiveParam q.sort (S "name")) = S "name" <;>
      by_cases hs2 : lowerStr (effectiveParam q.sort (S "name")) = S "price" <;>
        by_cases hd1 : lowerStr (effectiveParam q.direction (S "asc")) = S "asc" <;>
          by_cases hd2 : lowerStr (effectiveParam q.direction (S "asc")) = S "desc" <;>
            simp [hs1, hs2, hd1, hd2]
  · intro hnone
    constructor <;> simp [productsEndpoint, hnone]

/-- Witness for C5: the mixed-case pair `PriCE`/`DeSC` is accepted; the
malformed sort value `price2` yields 400 with the invalid-query message and a
response independent of the catalog contents. -/
theorem products_query_validation_inst :
    (validateProductsQuery ⟨none, some (S "PriCE"), some (S "DeSC")⟩).isSome ∧
    productsEndpoint [⟨S "Cake", 10, S "d", S "i"⟩] ⟨none, some (S "price2"), none⟩ =
      ⟨400, .text INVALID_QUERY_MSG⟩ ∧
    productsEndpoint [⟨S "Cake", 10, S "d", S "i"⟩] ⟨none, some (S "price2"), none⟩ =
      productsEndpoint [] ⟨none, some (S "price2"), none⟩ := by
  refine ⟨(products_query_validation ⟨none, some (S "PriCE"), some (S "DeSC")⟩ [] []).1.mpr
    (by decide), ?_, ?_⟩
  · exact ((products_query_validation ⟨none, some (S "price2"), none⟩
      [⟨S "Cake", 10, S "d", S "i"⟩] []).2 (by decide)).1
  · exact ((products_query_validation ⟨none, some (S "price2"), none⟩
      [⟨S "Cake", 10, S "d", S "i"⟩] []).2 (by decide)).2

theorem splitOnChar_ne (sep : Char) (l : JStr) : splitOnChar sep l ≠ [] := by
  cases l with
  | nil => simp [splitOnChar]
  | cons c cs =>
    unfold splitOnChar
    cases h : splitOnChar sep cs with
    | nil => simp
    | cons w ws =>
      dsimp only
      split <;> simp

theorem joinChar_cons_head (sep c : Char) (w : JStr) (ws : List JStr) :
    joinChar sep ((c :: w) :: ws) = c :: joinChar sep (w :: ws) := by
  cases ws <;> rfl

/-- Claim-side rewrite of a search filter: lowercase the string and replace
every space with a dash. -/
def lowerDashRewrite (s : JStr) : JStr :=
  s.map (fun c => if c = ' ' then '-' else Char.toLower c)

theorem formatDashes_cons (c : Char) (cs : JStr) :
    formatDashes (c :: cs) =
      if c = ' ' then '-' :: formatDashes cs else Char.toLower c :: formatDashes cs := by
  unfold formatDashes
  cases h : splitOnChar ' ' cs with
  | nil => exact absurd h (splitOnChar_ne ' ' cs)
  | cons w ws =>
    show joinChar '-' (((splitOnChar ' ' (c :: cs))).map lowerStr) = _
    unfold splitOnChar
    rw [h]
    by_cases hc : c = ' '
    · simp only [hc, if_true, List.map_cons]
      rfl
    · simp only [hc, if_false, List.map_cons]
      rw [show lowerStr (c :: w) = Char.toLower c :: lowerStr w from rfl,
        joinChar_cons_head]

theorem formatDashes_eq_lowerDashRewrite (s : JStr) :
    formatDashes s = lowerDashRewrite s := by
  induction s with
  | nil => rfl
  | cons c cs ih =>
    rw [formatDashes_cons, lowerDashRewrite, List.map_cons]
    by_cases hc : c = ' '
    · simp [hc, lowerDashRewrite] at *
      exact ih
    · simp [hc, lowerDashRewrite] at *
      exact ih

/-- C9: for every `GET /products` request, the validation middleware rewrites
the `contains` parameter before filtering: it becomes the raw parameter
(missing defaulting to the empty string) lowercased with every space replaced
by a dash, it never causes rejection, and filtering with the rewritten value
is filtering with the lowercase dash-joined form. -/
theorem validate_rewrites_contains (q : ProductsQuery) (v : ValidatedQuery) (c : JStr)
    (h : validateProductsQuery q = some v) :
    v.contains = lowerDashRewrite (q.contains.getD []) ∧
    (validateProductsQuery ⟨some c, q.sort, q.direction⟩).isSome ∧
    ∀ db, getProductsListFiltered db v.contains v.sort v.direction =
      getProductsListFiltered db (lowerDashRewrite (q.contains.getD []))
        v.sort v.direction := by
  have hre : formatDashes (effectiveParam q.contains []) =
      lowerDashRewrite (q.contains.getD []) := by
    rw [formatDashes_eq_lowerDashRewrite]
    cases q.contains with
    | none => rfl
    | some s =>
      cases s with
      | nil => rfl
      | cons a as => rfl
  unfold validateProductsQuery at h
  dsimp only at h
  constructor
  · split at h
    · exact absurd h (by simp)
    · cases h
      exact hre
  · constructor
    · unfold validateProductsQuery
      dsimp only
      split at h
      · exact absurd h (by simp)
      · rename_i hcond
        simp only [hcond, Bool.false_eq_true, if_false, Option.isSome_some]
    · intro db
      split at h
      · exact absurd h (by simp)
      · cases h
        rw [hre]

/-- Witness for C9: the raw filter `"Mini Palmiers"` is rewritten to
`"mini-palmiers"` and accepted. -/
theorem validate_rewrites_contains_inst :
    (⟨S "mini-palmiers", S "name", S "asc"⟩ : ValidatedQuery).contains =
      lowerDashRewrite ((some (S "Mini Palmiers") : Option JStr).getD []) ∧
    (validateProductsQuery ⟨some (S "Mini Palmiers"), none, none⟩).isSome ∧
    ∀ db, getProductsListFiltered db
        (⟨S "mini-palmiers", S "name", S "asc"⟩ : ValidatedQuery).contains
        (S "name") (S "asc") =
      getProductsListFiltered db
        (lowerDashRewrite ((some (S "Mini Palmiers") : Option JStr).getD []))
        (S "name") (S "asc") :=
  validate_rewrites_contains ⟨some (S "Mini Palmiers"), none, none⟩
    ⟨S "mini-palmiers", S "name", S "asc"⟩ (S "Mini Palmiers") (by decide)

/-- MySQL `SELECT ... FROM products WHERE name = ?` under the default
case-insensitive collation, taking the first matching row (`rows[0]`). -/
def findProduct (db : List ProductRow) (name : JStr) : Option ProductRow :=
  db.find? (fun r => decide (lowerStr r.name = lowerStr name))

/-- JavaScript `arr.splice(i, 0, a)` for a non-negative index: insert `a` at
position `i` (clamped to the length, as in JavaScript). -/
def jsSpliceInsert (i : Nat) (a : α) (l : List α) : List α :=
  l.take i ++ a :: l.drop i

/-- JavaScript `arr.splice(-1, 0, a)`: the index `-1` addresses the position
before the last element (`max(length - 1, 0)`). -/
def jsSpliceLast (a : α) (l : List α) : List α :=
  jsSpliceInsert (l.length - 1) a l

/-- The transform of the `POST /custom-description` handler in `app.js`:
`desc.split(" ")`, `splice(2, 0, flavor)`, `splice(-1, 0, box)`,
`join(" ")`. -/
def customDesc (desc flavor box : JStr) : JStr :=
  joinChar ' ' (jsSpliceLast box (jsSpliceInsert 2 flavor (splitOnChar ' ' desc)))

/-- `POST /custom-description`: the `validateDescParams` middleware rejects a
falsy `product`, `flavor` or `box` (400), title-cases the product and rejects
an unknown product (400); the handler then fetches the stored description and
responds with the transformed text. -/
def customDescriptionEndpoint (db : List ProductRow) (product flavor box : JStr) :
    Response :=
  if product.isEmpty || flavor.isEmpty || box.isEmpty then ⟨400, .text DESC_PARAMS_MSG⟩
  else
    match findProduct db (formatTitleCase product) with
    | none => ⟨400, .text PRODUCT_404_MSG⟩
    | some row => ⟨200, .text (customDesc row.description flavor box)⟩

theorem jsSpliceLast_concat (a b : α) (l : List α) :
    jsSpliceLast a (l ++ [b]) = l ++ [a, b] := by
  unfold jsSpliceLast jsSpliceInsert
  rw [show (l ++ [b]).length - 1 = l.length by simp]
  rw [List.take_left' rfl, List.drop_left' rfl]

/-- C2: for every existing product whose stored description splits into a
word sequence of at least 3 words (`front ++ [lastWord]` with
`2 ≤ front.length`), `POST /custom-description` returns those words with the
flavor inserted at index 2 (the third word) and the box inserted immediately
before the final word, re-joined by single spaces. -/
theorem custom_description_inserts (db : List ProductRow) (product flavor box : JStr)
    (row : ProductRow) (front : List JStr) (lastWord : JStr)
    (hp : ¬product.isEmpty) (hf : ¬flavor.isEmpty) (hb : ¬box.isEmpty)
    (hrow : findProduct db (formatTitleCase product) = some row)
    (hws : splitOnChar ' ' row.description = front ++ [lastWord])
    (hlen : 2 ≤ front.length) :
    customDescriptionEndpoint db product flavor box =
      ⟨200, .text (joinChar ' '
        (front.take 2 ++ flavor :: (front.drop 2 ++ [box, lastWord])))⟩ := by
  have step1 : jsSpliceInsert 2 flavor (splitOnChar ' ' row.description) =
      (front.take 2 ++ flavor :: front.drop 2) ++ [lastWord] := by
    rw [hws]
    unfold jsSpliceInsert
    rw [List.take_append_of_le_length hlen, List.drop_append_of_le_length hlen]
    simp [List.append_assoc]
  have key : customDesc row.description flavor box =
      joinChar ' ' (front.take 2 ++ flavor :: (front.drop 2 ++ [box, lastWord])) := by
    unfold customDesc
    rw [step1, jsSpliceLast_concat]
    simp [List.append_assoc]
  unfold customDescriptionEndpoint
  simp only [Bool.not_eq_true] at hp hf hb
  simp [hp, hf, hb, hrow, key]

/-- The seeded Cheesecake row of `setup.sql` (the SQL string literal spans a
line break, so the stored description contains a newline). -/
def cheesecakeRow : ProductRow :=
  ⟨S "Cheesecake", 7,
   S "One homemade cheesecake, four inches in diameter. Each cheesecake is\n packaged in a beautiful handcrafted box.",
   S "imgs/cheesecake-original.jpg"⟩

/-- Witness for C2: for product Cheesecake with flavor Caramel and box Bow,
Caramel becomes the third word and Bow the second-to-last word of the stored
description. -/
theorem custom_description_inserts_inst :
    customDescriptionEndpoint [cheesecakeRow] (S "cheesecake") (S "Caramel") (S "Bow") =
      ⟨200, .text (S "One homemade Caramel cheesecake, four inches in diameter. Each cheesecake is\n packaged in a beautiful handcrafted Bow box.")⟩ :=
  (custom_description_inserts [cheesecakeRow] (S "cheesecake") (S "Caramel") (S "Bow")
    cheesecakeRow
    [S "One", S "homemade", S "cheesecake,", S "four", S "inches", S "in",
     S "diameter.", S "Each", S "cheesecake", S "is\n", S "packaged", S "in",
     S "a", S "beautiful", S "handcrafted"]
    (S "box.")
    (by decide) (by decide) (by decide) (by decide) (by decide) (by decide)).trans
    (by decide)

/-- A per-unit customization pair {flavor, box}. -/
structure Customization where
  flavor : JStr
  box : JStr
deriving DecidableEq

/-- A cart line item as stored in the session-storage `cart` key. -/
structure CartItem where
  name : JStr
  price : Rat
  customizations : List Customization
deriving DecidableEq

/-- The search-and-remove loop of `updateCart` in the products page script:
`for (i = 0; i < cart.length; i++) if (cart[i].name === name)
item = cart.splice(i, 1)[0]`.  Splicing at `i` and then incrementing `i`
skips the element that directly follows a match, and a later match
overwrites `item`; both behaviours are modelled exactly.  Returns the
remaining list and the last matched item. -/
def updateLoop (n : JStr) : List CartItem → List CartItem × Option CartItem
  | [] => ([], none)
  | x :: xs =>
    if x.name = n then
      match xs with
      | [] => ([], some x)
      | y :: ys =>
        let r := updateLoop n ys
        (y :: r.1, some (r.2.getD x))
    else
      let r := updateLoop n xs
      (x :: r.1, r.2)

/-- `updateCart` from the products page script: run the splice loop for the
selected product name; take the matched item or create a fresh one with the
displayed price and empty customizations; push `qty` copies of the selected
customization pair; append the item at the end of the cart. -/
def updateCart (name : JStr) (price : Rat) (cust : Customization) (qty : Nat)
    (cart : List CartItem) : List CartItem :=
  let r := updateLoop name cart
  let item := r.2.getD ⟨name, price, []⟩
  r.1 ++ [{ item with customizations := item.customizations ++ List.replicate qty cust }]

/-- One Add request; `qty = none` models a quantity input that parses to
NaN. -/
structure AddReq where
  name : JStr
  price : Rat
  cust : Customization
  qty : Option Nat

/-- `addCart` from the products page script: aborts silently unless the
quantity is a number in `[1, 10]` (the `qty < min || qty > max || !qty`
guard); otherwise rewrites the stored cart through `updateCart`. -/
def addCart (r : AddReq) (cart : List CartItem) : List CartItem :=
  match r.qty with
  | none => cart
  | some q => if q < 1 || 10 < q then cart else updateCart r.name r.price r.cust q cart

/-- The quantity a request actually adds (0 when the guard rejects it). -/
def effQty (r : AddReq) : Nat :=
  match r.qty with
  | none => 0
  | some q => if q < 1 || 10 < q then 0 else q

/-- Total quantity added for a product name over a request sequence. -/
def totalAdded (reqs : List AddReq) (n : JStr) : Nat :=
  match reqs with
  | [] => 0
  | r :: rs => (if r.name = n then effQty r else 0) + totalAdded rs n

/-- The stored cart after a sequence of Adds starting from the empty cart
(session storage without the key is read as an empty cart). -/
def applyAdds (reqs : List AddReq) : List CartItem :=
  reqs.foldl (fun c r => addCart r c) []

theorem updateLoop_no_match (n : JStr) (l : List CartItem)
    (h : ∀ x ∈ l, x.name ≠ n) : updateLoop n l = (l, none) := by
  induction l with
  | nil => rfl
  | cons x xs ih =>
    have hx : x.name ≠ n := h x (List.mem_cons_self x xs)
    unfold updateLoop
    simp only [hx, if_false]
    rw [ih (fun y hy => h y (List.mem_cons_of_mem x hy))]

theorem updateLoop_nodup (n : JStr) (l : List CartItem)
    (h : (l.map CartItem.name).Nodup) :
    updateLoop n l =
      (l.filter (fun x => decide (x.name ≠ n)),
       l.find? (fun x => decide (x.name = n))) := by
  induction l with
  | nil => rfl
  | cons x xs ih =>
    rw [List.map_cons, List.nodup_cons] at h
    obtain ⟨hx, hxs⟩ := h
    by_cases hname : x.name = n
    · have hnomatch : ∀ y ∈ xs, y.name ≠ n := by
        intro y hy hyn
        have hmem : y.name ∈ List.map CartItem.name xs := List.mem_map_of_mem _ hy
        rw [hyn, ← hname] at hmem
        exact hx hmem
      cases xs with
      | nil =>
        unfold updateLoop
        simp [hname]
      | cons y ys =>
        have hy : y.name ≠ n := hnomatch y (List.mem_cons_self y ys)
        have hys : ∀ z ∈ ys, z.name ≠ n := fun z hz =>
          hnomatch z (List.mem_cons_of_mem y hz)
        unfold updateLoop
        simp only [hname, if_true]
        rw [updateLoop_no_match n ys hys]
        simp [List.filter_cons, List.find?_cons, hname, hy]
        exact (List.filter_eq_self.mpr (fun z hz => by simpa using hys z hz)).symm
    · unfold updateLoop
      simp only [hname, if_false]
      rw [ih hxs]
      simp [hname]

theorem find_unique_name (cart : List CartItem) (old : CartItem)
    (hnodup : (cart.map CartItem.name).Nodup) (hold : old ∈ cart) :
    cart.find? (fun x => decide (x.name = old.name)) = some old := by
  induction cart with
  | nil => cases hold
  | cons x xs ih =>
    rw [List.map_cons, List.nodup_cons] at hnodup
    obtain ⟨hx, hxs⟩ := hnodup
    rcases List.mem_cons.mp hold with heq | hmem
    · subst heq
      simp [List.find?_cons]
    · have hne : x.name ≠ old.name := by
        intro hc
        exact hx (hc ▸ List.mem_map_of_mem _ hmem)
      rw [List.find?_cons]
      simp only [hne, decide_False]
      exact ih hxs hmem

theorem updateCart_eq (n : JStr) (price : Rat) (cust : Customization) (qty : Nat)
    (cart : List CartItem) (hnodup : (cart.map CartItem.name).Nodup) :
    updateCart n price cust qty cart =
      cart.filter (fun x => decide (x.name ≠ n)) ++
        [match cart.find? (fun x => decide (x.name = n)) with
         | some z => { z with customizations := z.customizations ++ List.replicate qty cust }
         | none => ⟨n, price, List.replicate qty cust⟩] := by
  unfold updateCart
  rw [updateLoop_nodup n cart hnodup]
  cases hfind : cart.find? (fun x => decide (x.name = n)) with
  | none => simp
  | some z => simp

theorem addCart_inv (r : AddReq) (cart : List CartItem) (f : JStr → Nat)
    (h1 : (cart.map CartItem.name).Nodup)
    (h2 : ∀ item ∈ cart, item.customizations.length = f item.name)
    (h3 : ∀ n, f n ≠ 0 → ∃ item ∈ cart, item.name = n) :
    ((addCart r cart).map CartItem.name).Nodup ∧
    (∀ item ∈ addCart r cart,
      item.customizations.length =
        f item.name + (if r.name = item.name then effQty r else 0)) ∧
    (∀ n, f n + (if r.name = n then effQty r else 0) ≠ 0 →
      ∃ item ∈ addCart r cart, item.name = n) := by
  have trivialCase : ∀ (hc : addCart r cart = cart) (he : effQty r = 0),
      ((addCart r cart).map CartItem.name).Nodup ∧
      (∀ item ∈ addCart r cart,
        item.customizations.length =
          f item.name + (if r.name = item.name then effQty r else 0)) ∧
      (∀ n, f n + (if r.name = n then effQty r else 0) ≠ 0 →
        ∃ item ∈ addCart r cart, item.name = n) := by
    intro hc he
    rw [hc, he]
    simp only [ite_self, Nat.add_zero]
    exact ⟨h1, h2, h3⟩
  cases hq : r.qty with
  | none =>
    exact trivialCase (by simp only [addCart, hq]) (by simp only [effQty, hq])
  | some q =>
    by_cases hguard : (q < 1 || 10 < q) = true
    · refine trivialCase ?_ ?_
      · simp only [addCart, hq]
        rw [if_pos hguard]
      · simp only [effQty, hq]
        rw [if_pos hguard]
    · have haddc : addCart r cart = updateCart r.name r.price r.cust q cart := by
        simp only [addCart, hq]
        rw [if_neg hguard]
      have heff : effQty r = q := by
        simp only [effQty, hq]
        rw [if_neg hguard]
      rw [haddc, heff, updateCart_eq r.name r.price r.cust q cart h1]
      set newItem := (match cart.find? (fun x => decide (x.name = r.name)) with
         | some z => { z with customizations := z.customizations ++ List.replicate q r.cust }
         | none => (⟨r.name, r.price, List.replicate q r.cust⟩ : CartItem)) with hnew
      have hnewname : newItem.name = r.name := by
        rw [hnew]
        cases hfind : cart.find? (fun x => decide (x.name = r.name)) with
        | none => simp
        | some z =>
          have hz := List.find?_some hfind
          simp only [decide_eq_true_eq] at hz
          simp [hz]
      have hmemF : ∀ x ∈ cart.filter (fun x => decide (x.name ≠ r.name)),
          x ∈ cart ∧ x.name ≠ r.name := by
        intro x hx
        have hx2 := List.mem_filter.mp hx
        simpa using hx2
      refine ⟨?_, ?_, ?_⟩
      · rw [List.map_append, List.nodup_append]
        refine ⟨((List.filter_sublist cart).map CartItem.name).nodup h1, by simp, ?_⟩
        intro a ha hb
        simp only [List.map_cons, List.map_nil, List.mem_singleton] at hb
        rw [hb, hnewname] at ha
        obtain ⟨x, hx, hxa⟩ := List.mem_map.mp ha
        exact (hmemF x hx).2 hxa
      · intro item hitem
        rcases List.mem_append.mp hitem with hF | hNew
        · obtain ⟨hmem, hne⟩ := hmemF item hF
          rw [if_neg (fun h => hne h.symm), Nat.add_zero]
          exact h2 item hmem
        · rw [List.mem_singleton.mp hNew, hnewname, if_pos rfl, hnew]
          cases hfind : cart.find? (fun x => decide (x.name = r.name)) with
          | none =>
            have hzero : f r.name = 0 := by
              by_contra hnz
              obtain ⟨item0, hm0, hn0⟩ := h3 r.name hnz
              have hnone := List.find?_eq_none.mp hfind item0 hm0
              simp [hn0] at hnone
            simp [hzero]
          | some z =>
            have hzmem := List.mem_of_find?_eq_some hfind
            have hzname := List.find?_some hfind
            simp only [decide_eq_true_eq] at hzname
            simp only [List.length_append, List.length_replicate]
            rw [h2 z hzmem, hzname]
      · intro n hn
        by_cases hrn : r.name = n
        · refine ⟨newItem, List.mem_append_right _ (List.mem_singleton_self _), ?_⟩
          rw [hnewname, hrn]
        · rw [if_neg hrn, Nat.add_zero] at hn
          obtain ⟨item0, hm0, hn0⟩ := h3 n hn
          refine ⟨item0, List.mem_append_left _ ?_, hn0⟩
          rw [List.mem_filter]
          refine ⟨hm0, ?_⟩
          simp only [decide_eq_true_eq]
          rw [hn0]
          exact fun h => hrn h.symm

theorem applyAdds_go (reqs : List AddReq) :
    ∀ (cart : List CartItem) (f : JStr → Nat),
    (cart.map CartItem.name).Nodup →
    (∀ item ∈ cart, item.customizations.length = f item.name) →
    (∀ n, f n ≠ 0 → ∃ item ∈ cart, item.name = n) →
    ((reqs.foldl (fun c r => addCart r c) cart).map CartItem.name).Nodup ∧
    (∀ item ∈ reqs.foldl (fun c r => addCart r c) cart,
      item.customizations.length = f item.name + totalAdded reqs item.name) ∧
    (∀ n, f n + totalAdded reqs n ≠ 0 →
      ∃ item ∈ reqs.foldl (fun c r => addCart r c) cart, item.name = n) := by
  induction reqs with
  | nil =>
    intro cart f h1 h2 h3
    refine ⟨h1, ?_, ?_⟩
    · intro item hitem
      simp only [totalAdded, Nat.add_zero]
      exact h2 item hitem
    · intro n hn
      simp only [totalAdded, Nat.add_zero] at hn
      exact h3 n hn
  | cons r rs ih =>
    intro cart f h1 h2 h3
    obtain ⟨i1, i2, i3⟩ := addCart_inv r cart f h1 h2 h3
    obtain ⟨g1, g2, g3⟩ := ih (addCart r cart)
      (fun n => f n + (if r.name = n then effQty r else 0)) i1 i2 i3
    refine ⟨g1, ?_, ?_⟩
    · intro item hitem
      have hg := g2 item hitem
      simp only [totalAdded]
      rw [← Nat.add_assoc]
      exact hg
    · intro n hn
      apply g3
      simp only [totalAdded] at hn
      rw [← Nat.add_assoc] at hn
      exact hn

/-- C3: after every sequence of Cart Add operations starting from the empty
cart, the stored cart has at most one line item per product name (the names
are pairwise distinct), each line item carries exactly as many customization
entries as the total quantity validly added for that product, and every
product with a nonzero added total is present. -/
theorem cart_add_merge_invariant (reqs : List AddReq) :
    ((applyAdds reqs).map CartItem.name).Nodup ∧
    (∀ item ∈ applyAdds reqs, item.customizations.length = totalAdded reqs item.name) ∧
    (∀ n, totalAdded reqs n ≠ 0 → ∃ item ∈ applyAdds reqs, item.name = n) := by
  obtain ⟨g1, g2, g3⟩ := applyAdds_go reqs [] (fun _ => 0)
    (by simp) (by simp) (by simp)
  exact ⟨g1, fun item h => by simpa using g2 item h, fun n hn => g3 n (by simpa using hn)⟩

/-- Witness for C3: Add called twice with the same product name (quantity 1
each) and different customizations yields exactly one line item whose
customization list has length 2. -/
theorem cart_add_merge_invariant_inst :
    (∀ item ∈ applyAdds
        [⟨S "Cake", 10, ⟨S "Chocolate", S "Plain"⟩, some 1⟩,
         ⟨S "Cake", 10, ⟨S "Vanilla", S "Flower"⟩, some 1⟩],
      item.customizations.length = totalAdded
        [⟨S "Cake", 10, ⟨S "Chocolate", S "Plain"⟩, some 1⟩,
         ⟨S "Cake", 10, ⟨S "Vanilla", S "Flower"⟩, some 1⟩] item.name) ∧
    applyAdds
        [⟨S "Cake", 10, ⟨S "Chocolate", S "Plain"⟩, some 1⟩,
         ⟨S "Cake", 10, ⟨S "Vanilla", S "Flower"⟩, some 1⟩] =
      [⟨S "Cake", 10, [⟨S "Chocolate", S "Plain"⟩, ⟨S "Vanilla", S "Flower"⟩]⟩] :=
  ⟨(cart_add_merge_invariant
      [⟨S "Cake", 10, ⟨S "Chocolate", S "Plain"⟩, some 1⟩,
       ⟨S "Cake", 10, ⟨S "Vanilla", S "Flower"⟩, some 1⟩]).2.1,
   by decide⟩

/-- C10: when Cart Add merges into an already-present product (the stored
cart has one line item per name, as every reachable cart does), the matched
line item is removed from its position and re-appended at the end with the
new customizations, so the added product is the last line item and the
relative order of all other line items is preserved (they are exactly the
name-filtered original list, in order). -/
theorem cart_add_remerge_last (cart : List CartItem) (old : CartItem)
    (price : Rat) (cust : Customization) (qty : Nat)
    (hnodup : (cart.map CartItem.name).Nodup) (hold : old ∈ cart) :
    updateCart old.name price cust qty cart =
      cart.filter (fun x => decide (x.name ≠ old.name)) ++
        [{ old with customizations := old.customizations ++ List.replicate qty cust }] := by
  rw [updateCart_eq old.name price cust qty cart hnodup,
    find_unique_name cart old hnodup hold]

/-- Witness for C10: merging two more Brownies units moves the Brownies line
item past the Cake line item to the end of the stored cart. -/
theorem cart_add_remerge_last_inst :
    updateCart (S "Brownies") 2 ⟨S "Caramel", S "Flower"⟩ 2
        [⟨S "Brownies", 2, [⟨S "Chocolate", S "Bow"⟩]⟩, ⟨S "Cake", 10, []⟩] =
      [⟨S "Cake", 10, []⟩,
       ⟨S "Brownies", 2,
        [⟨S "Chocolate", S "Bow"⟩, ⟨S "Caramel", S "Flower"⟩,
         ⟨S "Caramel", S "Flower"⟩]⟩] :=
  (cart_add_remerge_last
    [⟨S "Brownies", 2, [⟨S "Chocolate", S "Bow"⟩]⟩, ⟨S "Cake", 10, []⟩]
    ⟨S "Brownies", 2, [⟨S "Chocolate", S "Bow"⟩]⟩ 2 ⟨S "Caramel", S "Flower"⟩ 2
    (by decide) (by decide)).trans (by decide)

/-- JavaScript whitespace for `String.prototype.trim` (the characters
occurring here). -/
def jsWhitespace (c : Char) : Bool :=
  c = ' ' || c = '\n' || c = '\t' || c = '\r'

/-- JavaScript `str.trim()`: strip whitespace from both ends. -/
def jsTrim (s : JStr) : JStr :=
  ((s.dropWhile jsWhitespace).reverse.dropWhile jsWhitespace).reverse

/-- The loop of `initializeFeatured` in the home page script: for each
featured name, fetch `/products/<formatDashes name>`; on success append the
card to the `featured` section; on any fetch failure the `catch` displays the
error message and the loop stops, with the cards appended so far left in the
DOM.  `fetchDetail` abstracts the detail fetch (`none` is a network failure
or non-2xx response); the Bool result is `false` when the error state was
entered. -/
def renderFeaturedLoop (fetchDetail : JStr → Option ProductRow) :
    List JStr → List ProductRow → List ProductRow × Bool
  | [], cards => (cards, true)
  | n :: ns, cards =>
    match fetchDetail (formatDashes n) with
    | none => (cards, false)
    | some p => renderFeaturedLoop fetchDetail ns (cards ++ [p])

/-- `initializeFeatured`: fetch the newline-joined featured names, trim and
split them, then run the sequential detail-fetch loop starting from an empty
section. -/
def initializeFeatured (featuredBody : JStr) (fetchDetail : JStr → Option ProductRow) :
    List ProductRow × Bool :=
  renderFeaturedLoop fetchDetail (splitOnChar '\n' (jsTrim featuredBody)) []

theorem renderFeaturedLoop_ok (fetchDetail : JStr → Option ProductRow)
    (ns : List JStr) (hok : ∀ n ∈ ns, (fetchDetail (formatDashes n)).isSome) :
    ∀ acc, renderFeaturedLoop fetchDetail ns acc =
      (acc ++ ns.filterMap (fun n => fetchDetail (formatDashes n)), true) := by
  induction ns with
  | nil => intro acc; simp [renderFeaturedLoop]
  | cons n ns ih =>
    intro acc
    obtain ⟨p, hp⟩ := Option.isSome_iff_exists.mp (hok n (List.mem_cons_self n ns))
    have hstep : renderFeaturedLoop fetchDetail (n :: ns) acc =
        renderFeaturedLoop fetchDetail ns (acc ++ [p]) := by
      conv_lhs => rw [renderFeaturedLoop]
      rw [hp]
    rw [hstep, ih (fun m hm => hok m (List.mem_cons_of_mem n hm)) (acc ++ [p])]
    simp [List.filterMap_cons, hp]

theorem renderFeaturedLoop_fail (fetchDetail : JStr → Option ProductRow)
    (pre : List JStr) (n : JStr) (post : List JStr)
    (hok : ∀ m ∈ pre, (fetchDetail (formatDashes m)).isSome)
    (hfail : fetchDetail (formatDashes n) = none) :
    ∀ acc, renderFeaturedLoop fetchDetail (pre ++ n :: post) acc =
      (acc ++ pre.filterMap (fun m => fetchDetail (formatDashes m)), false) := by
  induction pre with
  | nil =>
    intro acc
    have hstep : renderFeaturedLoop fetchDetail ([] ++ n :: post) acc = (acc, false) := by
      show renderFeaturedLoop fetchDetail (n :: post) acc = (acc, false)
      conv_lhs => rw [renderFeaturedLoop]
      rw [hfail]
    rw [hstep]
    simp
  | cons m ms ih =>
    intro acc
    obtain ⟨p, hp⟩ := Option.isSome_iff_exists.mp (hok m (List.mem_cons_self m ms))
    have hstep : renderFeaturedLoop fetchDetail ((m :: ms) ++ n :: post) acc =
        renderFeaturedLoop fetchDetail (ms ++ n :: post) (acc ++ [p]) := by
      show renderFeaturedLoop fetchDetail (m :: (ms ++ n :: post)) acc = _
      conv_lhs => rw [renderFeaturedLoop]
      rw [hp]
    rw [hstep, ih (fun z hz => hok z (List.mem_cons_of_mem m hz)) (acc ++ [p])]
    simp [List.filterMap_cons, hp]

/-- C6 (amended): the featured section issues one detail fetch per name of
the (trimmed, newline-split) featured response, sequentially and in response
order; if all fetches succeed, the rendered cards are exactly the fetched
products in that order; if a fetch fails, the section enters the error state
and stops fetching, but the cards appended before the failure remain
displayed (partial rendering up to the failed name). -/
theorem featured_renders_in_order (body : JStr) (names : List JStr)
    (fetchDetail : JStr → Option ProductRow)
    (hn : names = splitOnChar '\n' (jsTrim body)) :
    ((∀ n ∈ names, (fetchDetail (formatDashes n)).isSome) →
      initializeFeatured body fetchDetail =
        (names.filterMap (fun n => fetchDetail (formatDashes n)), true)) ∧
    (∀ pre n post, names = pre ++ n :: post →
      (∀ m ∈ pre, (fetchDetail (formatDashes m)).isSome) →
      fetchDetail (formatDashes n) = none →
      initializeFeatured body fetchDetail =
        (pre.filterMap (fun m => fetchDetail (formatDashes m)), false)) := by
  constructor
  · intro hok
    unfold initializeFeatured
    rw [← hn, renderFeaturedLoop_ok fetchDetail names hok []]
    simp
  · intro pre n post hsplit hok hfail
    unfold initializeFeatured
    rw [← hn, hsplit, renderFeaturedLoop_fail fetchDetail pre n post hok hfail []]
    simp

/-- Counterexample for C6 as stated: with featured response
`"Cheesecake\nMystery Pie"` and a detail endpoint that knows only
`cheesecake`, the section enters the error state, yet the Cheesecake card
rendered before the failure is still displayed — the claimed
`no partial rendering` is false. -/
theorem featured_error_keeps_cards :
    (initializeFeatured (S "Cheesecake\nMystery Pie")
        (fun n => if n = S "cheesecake" then some cheesecakeRow else none)).2 = false ∧
    (initializeFeatured (S "Cheesecake\nMystery Pie")
        (fun n => if n = S "cheesecake" then some cheesecakeRow else none)).1 =
      [cheesecakeRow] := by
  decide

/-- Witness for C6 (amended): a two-name response where both fetches succeed
renders both cards in order, and a failure on the second name keeps exactly
the first card. -/
theorem featured_renders_in_order_inst :
    initializeFeatured (S "Cheesecake\nMini Palmiers")
        (fun n => if n = S "cheesecake" then some cheesecakeRow
                  else if n = S "mini-palmiers" then some ⟨S "Mini Palmiers", 8, S "d", S "i"⟩
                  else none) =
      ([cheesecakeRow, ⟨S "Mini Palmiers", 8, S "d", S "i"⟩], true) ∧
    initializeFeatured (S "Cheesecake\nMystery Pie")
        (fun n => if n = S "cheesecake" then some cheesecakeRow else none) =
      ([cheesecakeRow], false) := by
  constructor
  · exact ((featured_renders_in_order (S "Cheesecake\nMini Palmiers")
      [S "Cheesecake", S "Mini Palmiers"]
      (fun n => if n = S "cheesecake" then some cheesecakeRow
                else if n = S "mini-palmiers" then some ⟨S "Mini Palmiers", 8, S "d", S "i"⟩
                else none)
      (by decide)).1 (by decide)).trans (by decide)
  · exact ((featured_renders_in_order (S "Cheesecake\nMystery Pie")
      [S "Cheesecake", S "Mystery Pie"]
      (fun n => if n = S "cheesecake" then some cheesecakeRow else none)
      (by decide)).2 [S "Cheesecake"] (S "Mystery Pie") [] (by decide)
      (by decide) (by decide)).trans (by decide)

/-- Outcome of `await getDB()` for one request. -/
inductive ConnectOutcome where
  | ok
  | fail
deriving DecidableEq

/-- Outcome of the request's database query (`db.query(...)`). -/
inductive QueryOutcome where
  | ok
  | fail
deriving DecidableEq

/-- `mysql.createConnection` succeeded: one more connection is open. -/
def openConn (n : Nat) : Nat := n + 1

/-- `db.end()`: one fewer connection is open. -/
def closeConn (n : Nat) : Nat := n - 1

/-- Connections left open when one `GET /products` request finishes
(`app.get("/products", ...)` in `app.js`).  If `getDB()` throws, `db` is
never assigned and the catch block's `if (db) db.end()` is skipped, but no
connection exists; on the success path `db.end()` runs before `res.json`; on
a query failure the catch block closes the connection. -/
def productsRouteOpenConns (c : ConnectOutcome) (q : QueryOutcome) : Nat :=
  match c with
  | .fail => 0
  | .ok =>
    match q with
    | .ok => closeConn (openConn 0)
    | .fail => closeConn (openConn 0)

/-- Connections left open when the `validateDescParams` middleware finishes.
`paramsPresent` is the `req.body.product && req.body.flavor && req.body.box`
check (no connection is opened when it fails).  The middleware is an async
function with no try/catch: when `db.query` throws after `getDB()` succeeded,
the promise rejects and the `db.end()` call that follows the query is never
reached, so the connection stays open.  When the query succeeds, `db.end()`
runs before the rows check, on both the 400 and the pass-through branch. -/
def validateDescParamsOpenConns (paramsPresent : Bool) (c : ConnectOutcome)
    (q : QueryOutcome) : Nat :=
  if !paramsPresent then 0
  else
    match c with
    | .fail => 0
    | .ok =>
      match q with
      | .ok => closeConn (openConn 0)
      | .fail => openConn 0

/-- Counterexample for C7 as stated: when the product-lookup query of the
`/custom-description` validation middleware throws (after a successful
connect, with all parameters present), the request finishes with its
connection still open — not every exit path closes the connection. -/
theorem validate_desc_leaves_conn_open :
    validateDescParamsOpenConns true ConnectOutcome.ok QueryOutcome.fail = 1 ∧
    validateDescParamsOpenConns true ConnectOutcome.ok QueryOutcome.fail ≠ 0 := by
  decide

/-- C7 (amended): the `GET /products` handler closes its connection on every
exit path; the `validateDescParams` middleware closes its connection on every
exit path except when its lookup query throws after a successful connect
(with all parameters present), in which case exactly that path leaves the
connection open. -/
theorem connection_scope_amended (c : ConnectOutcome) (q : QueryOutcome) (p : Bool) :
    productsRouteOpenConns c q = 0 ∧
    (validateDescParamsOpenConns p c q = 0 ↔
      ¬(p = true ∧ c = ConnectOutcome.ok ∧ q = QueryOutcome.fail)) := by
  cases c <;> cases q <;> cases p <;> decide

/-- Witness for C7 (amended): a failed `/products` query still ends with the
connection closed, and a successful middleware lookup closes its
connection. -/
theorem connection_scope_amended_inst :
    productsRouteOpenConns ConnectOutcome.ok QueryOutcome.fail = 0 ∧
    validateDescParamsOpenConns true ConnectOutcome.ok QueryOutcome.ok = 0 :=
  ⟨(connection_scope_amended ConnectOutcome.ok QueryOutcome.fail true).1,
   (connection_scope_amended ConnectOutcome.ok QueryOutcome.ok true).2.mpr (by decide)⟩

/-- A row of the `feedback` table (`setup.sql`): the email column is the
primary key. -/
structure FeedbackRow where
  email : JStr
  name : JStr
  message : JStr
deriving DecidableEq

/-- Success message of `POST /contact-us`. -/
def CONTACT_OK_MSG : JStr := S "Message successfully submitted! Thank you!"

/-- Error message of `validateForm` for an email without `@`. -/
def EMAIL_ERR_MSG : JStr := S "Invalid email. Must contain '@'."

/-- `validateForm` from `app.js`: all of name, email, message must be truthy
and the email must contain `@`; otherwise a 400 response is produced. -/
def validateForm (name email message : JStr) : Option Response :=
  if name.isEmpty || email.isEmpty || message.isEmpty then
    some ⟨400, .text FORM_PARAMS_MSG⟩
  else if !email.contains '@' then some ⟨400, .text EMAIL_ERR_MSG⟩
  else none

/-- `recordMessage` from `app.js`:
`INSERT INTO feedback(name, email, message) VALUES (?, ?, ?)`.  The email
column is the primary key, so inserting a row whose email already exists
fails with a duplicate-key error. -/
def recordMessage (store : List FeedbackRow) (name email message : JStr) :
    Except Unit (List FeedbackRow) :=
  if store.any (fun row => decide (row.email = email)) then Except.error ()
  else Except.ok (store ++ [⟨email, name, message⟩])

/-- `POST /contact-us`: `validateForm` rejects invalid input with 400;
otherwise the handler inserts via `recordMessage` and answers with the
confirmation text; any thrown insert error is caught, the status is set to
500 and the message replaced by the generic server error. -/
def contactUsEndpoint (store : List FeedbackRow) (name email message : JStr) :
    Response :=
  match validateForm name email message with
  | some r => r
  | none =>
    match recordMessage store name email message with
    | .error _ => ⟨500, .text SERVER_ERROR_MSG⟩
    | .ok _ => ⟨200, .text CONTACT_OK_MSG⟩

/-- C8: for every `POST /contact-us` request that passes validation but whose
email already exists in the feedback store, the insert fails and the endpoint
responds 500 with the generic server-error message (not a dedicated 400/409
response). -/
theorem contact_us_duplicate_email (store : List FeedbackRow)
    (name email message : JStr)
    (hn : ¬name.isEmpty) (he : ¬email.isEmpty) (hm : ¬message.isEmpty)
    (hat : email.contains '@' = true)
    (hdup : ∃ row ∈ store, row.email = email) :
    recordMessage store name email message = Except.error () ∧
    contactUsEndpoint store name email message = ⟨500, .text SERVER_ERROR_MSG⟩ := by
  simp only [Bool.not_eq_true] at hn he hm
  have hins : recordMessage store name email message = Except.error () := by
    unfold recordMessage
    obtain ⟨row, hrow, heq⟩ := hdup
    rw [if_pos]
    exact List.any_eq_true.mpr ⟨row, hrow, by simp [heq]⟩
  refine ⟨hins, ?_⟩
  unfold contactUsEndpoint validateForm
  rw [hn, he, hm, hat]
  simp only [Bool.or_self, Bool.false_or, Bool.not_true, Bool.false_eq_true, if_false, hins]

/-- Witness for C8: re-submitting with an already-recorded email produces the
500 server-error response. -/
theorem contact_us_duplicate_email_inst :
    recordMessage [⟨S "ann@mail.com", S "Ann", S "hello"⟩]
        (S "Ann") (S "ann@mail.com") (S "hello again") = Except.error () ∧
    contactUsEndpoint [⟨S "ann@mail.com", S "Ann", S "hello"⟩]
        (S "Ann") (S "ann@mail.com") (S "hello again") =
      ⟨500, .text SERVER_ERROR_MSG⟩ :=
  contact_us_duplicate_email [⟨S "ann@mail.com", S "Ann", S "hello"⟩]
    (S "Ann") (S "ann@mail.com") (S "hello again")
    (by decide) (by decide) (by decide) (by decide)
    ⟨⟨S "ann@mail.com", S "Ann", S "hello"⟩, by decide, by decide⟩

/-- The decimal digit character for `d < 10`. -/
def digitChar (d : Nat) : Char := Char.ofNat (48 + d)

/-- Decimal digits of a natural number (fuel-driven so that it reduces). -/
def natDigitsAux : Nat → Nat → JStr
  | 0, _ => []
  | fuel + 1, n =>
    if n < 10 then [digitChar n]
    else natDigitsAux fuel (n / 10) ++ [digitChar (n % 10)]

/-- JavaScript number-to-string conversion for a nonnegative integer (the
quantity interpolated into the rendered line item). -/
def natChars (n : Nat) : JStr := natDigitsAux (n + 1) n

/-- Two-digit zero-padded rendering of `n < 100` (the cent part of
`toFixed(2)`). -/
def padTwo (n : Nat) : JStr := if n < 10 then '0' :: natChars n else natChars n

/-- JavaScript `num.toFixed(2)` for the nonnegative exact-decimal amounts
arising here: round the amount to a whole number of cents (half away from
zero on exact rationals; binary-float rounding is outside the model) and
print `<units>.<2-digit cents>`. -/
def toFixed2 (q : Rat) : JStr :=
  let cents := (⌊q * 100 + 1 / 2⌋).toNat
  natChars (cents / 100) ++ '.' :: padTwo (cents % 100)

/-- Value of a decimal-digit string (the accumulator pass of `parseFloat` on
the integer part). -/
def parseDigits (l : JStr) : Nat :=
  l.foldl (fun acc c => acc * 10 + (c.toNat - 48)) 0

/-- JavaScript `parseFloat` on strings of the `"<digits>.<2 digits>"` shape
produced by `toFixed(2)`. -/
def parseFix2 (l : JStr) : Rat :=
  match splitOnChar '.' l with
  | [a, b] => (parseDigits a : Rat) + (parseDigits b : Rat) / 100
  | _ => (parseDigits l : Rat)

/-- The position of the first occurrence of `pat` in a string, if any
(JavaScript `str.indexOf(pat)` before the `-1` encoding). -/
def indexOfSub (pat : JStr) : JStr → Option Nat
  | [] => if pat.isPrefixOf ([] : JStr) then some 0 else none
  | l@(_ :: cs) =>
    if pat.isPrefixOf l then some 0 else (indexOfSub pat cs).map (· + 1)

/-- JavaScript `str.indexOf(pat)`: first occurrence or `-1`. -/
def jsIndexOf (pat l : JStr) : Int :=
  match indexOfSub pat l with
  | some n => (n : Int)
  | none => -1

/-- JavaScript `str.slice(start, stop)`: negative indices count from the
end, and indices are clamped to the string. -/
def jsSlice (start stop : Int) (l : JStr) : JStr :=
  let len : Int := l.length
  let norm : Int → Nat := fun i => (if i < 0 then len + i else i).toNat
  (l.take (norm stop)).drop (norm start)

/-- The name extraction of `removeItem` in `cart.js`:
`name.slice(name.indexOf(" ") + 1, name.indexOf(" - "))` applied to the
rendered line item's `textContent`. -/
def parseNameFromText (text : JStr) : JStr :=
  jsSlice (jsIndexOf (S " ") text + 1) (jsIndexOf (S " - ") text) text

/-- The concatenated text of the customization sub-entries of one line item
(each is `Flavor: <f>\nBox Decoration: <b>`; `textContent` concatenates them
with no separator). -/
def customsText (cs : List Customization) : JStr :=
  cs.foldr (fun c acc =>
    S "Flavor: " ++ c.flavor ++ S "\nBox Decoration: " ++ c.box ++ acc) []

/-- The `textContent` of one rendered cart `<li>` built by `createItem` in
`cart.js`: the quantity (customization count), a space, the name, `" - $"`,
the span text `(<count> * price).toFixed(2)`, the remove button text `"X"`,
then the customization sub-entries. -/
def liText (item : CartItem) : JStr :=
  natChars item.customizations.length ++ ' ' :: item.name ++ S " - $" ++
    toFixed2 (item.price * (item.customizations.length : Rat)) ++ S "X" ++
    customsText item.customizations

/-- What `removeItem` reads from the clicked line item's DOM node: the full
`textContent`, the sub-entry count `children[2].children.length`, and
`parseFloat(children[0].textContent)` — the parsed span text. -/
structure RenderedItem where
  text : JStr
  subCount : Nat
  spanVal : Rat

/-- The DOM node that `createItem` builds for a line item, projected to the
fields `removeItem` reads. -/
def renderItem (item : CartItem) : RenderedItem :=
  ⟨liText item, item.customizations.length,
   parseFix2 (toFixed2 (item.price * (item.customizations.length : Rat)))⟩

/-- The removal loop of `removeItem` in `cart.js`:
`for (i = 0; i < cart.length; i++) if (cart[i].name === name)
cart.splice(i, 1)` — the same splice-and-increment skip as `updateCart`. -/
def removeLoop (n : JStr) : List CartItem → List CartItem
  | [] => []
  | x :: xs =>
    if x.name = n then
      match xs with
      | [] => []
      | y :: ys => y :: removeLoop n ys
    else x :: removeLoop n xs

/-- `removeItem` from `cart.js`: parse the product name out of the line
item's text, splice every match out of the stored cart, persist it, and
decrement the displayed count by the sub-entry count and the displayed total
by the parsed span value. -/
def removeItem (cart : List CartItem) (ri : RenderedItem) (dispCount : Nat)
    (dispTotal : Rat) : List CartItem × Nat × Rat :=
  let name := parseNameFromText ri.text
  (removeLoop name cart, dispCount - ri.subCount, dispTotal - ri.spanVal)

theorem digitChar_ne_space (d : Nat) (hd : d < 10) : digitChar d ≠ ' ' := by
  interval_cases d <;> decide

theorem digitChar_ne_dot (d : Nat) (hd : d < 10) : digitChar d ≠ '.' := by
  interval_cases d <;> decide

theorem digitChar_toNat (d : Nat) (hd : d < 10) : (digitChar d).toNat = 48 + d := by
  interval_cases d <;> decide

theorem natDigitsAux_ne (fuel : Nat) (a : Char) (ha : ∀ d < 10, digitChar d ≠ a) :
    ∀ n, ∀ c ∈ natDigitsAux fuel n, c ≠ a := by
  induction fuel with
  | zero => intro n c hc; cases hc
  | succ f ih =>
    intro n c hc
    unfold natDigitsAux at hc
    by_cases h : n < 10
    · rw [if_pos h] at hc
      rw [List.mem_singleton.mp hc]
      exact ha n h
    · rw [if_neg h] at hc
      rcases List.mem_append.mp hc with h1 | h2
      · exact ih (n / 10) c h1
      · rw [List.mem_singleton.mp h2]
        exact ha (n % 10) (Nat.mod_lt n (by norm_num))

theorem natChars_ne_space (n : Nat) : ∀ c ∈ natChars n, c ≠ ' ' :=
  natDigitsAux_ne (n + 1) ' ' digitChar_ne_space n

theorem natChars_ne_dot (n : Nat) : ∀ c ∈ natChars n, c ≠ '.' :=
  natDigitsAux_ne (n + 1) '.' digitChar_ne_dot n

theorem indexOfSub_eq_of (p l : JStr) (i : Nat)
    (hi : p.isPrefixOf (l.drop i) = true)
    (hmin : ∀ j < i, p.isPrefixOf (l.drop j) = false) :
    indexOfSub p l = some i := by
  induction l generalizing i with
  | nil =>
    cases i with
    | zero =>
      unfold indexOfSub
      rw [List.drop_zero] at hi
      rw [if_pos hi]
    | succ k =>
      have h0 := hmin 0 (Nat.succ_pos k)
      rw [List.drop_nil] at h0
      rw [List.drop_nil] at hi
      rw [h0] at hi
      cases hi
  | cons c cs ih =>
    cases i with
    | zero =>
      unfold indexOfSub
      rw [List.drop_zero] at hi
      rw [if_pos hi]
    | succ k =>
      have h0 := hmin 0 (Nat.succ_pos k)
      unfold indexOfSub
      rw [if_neg (by rw [List.drop_zero] at h0; simp [h0])]
      have hik : indexOfSub p cs = some k := by
        apply ih
        · rw [List.drop_succ_cons] at hi
          exact hi
        · intro j hj
          have := hmin (j + 1) (Nat.succ_lt_succ hj)
          rwa [List.drop_succ_cons] at this
      rw [hik]
      rfl

theorem parse_renders_name (qty : Nat) (name rest : JStr)
    (hdash : ¬ (S " - ") <:+: name)
    (hds : ¬ (S "- ") <+: name)
    (hnd : name ≠ S "-")
    (hes : ¬ (S " -") <:+ name) :
    parseNameFromText (natChars qty ++ ' ' :: (name ++ (S " - $" ++ rest))) = name := by
  have hq : ∀ c ∈ natChars qty, c ≠ ' ' := natChars_ne_space qty
  set q := natChars qty with hqdef
  set Z : JStr := S " - $" ++ rest with hZdef
  have htext : q ++ ' ' :: (name ++ Z) = (q ++ ' ' :: name) ++ Z := by
    simp
  have hAlen : (q ++ ' ' :: name).length = q.length + 1 + name.length := by
    simp
    omega
  have hdigit : ∀ j (hj : j < q.length) (X : JStr),
      List.isPrefixOf (' ' :: X) (List.drop j (q ++ ' ' :: (name ++ Z))) = false := by
    intro j hj X
    rw [List.drop_append_of_le_length (Nat.le_of_lt hj),
      List.drop_eq_getElem_cons hj]
    have hne := hq q[j] (List.getElem_mem hj)
    rw [List.cons_append, List.isPrefixOf_cons₂]
    simp only [Bool.and_eq_false_iff]
    left
    rw [beq_eq_false_iff_ne]
    intro hh
    exact hne hh.symm
  have hspace : indexOfSub (S " ") (q ++ ' ' :: (name ++ Z)) = some q.length := by
    apply indexOfSub_eq_of
    · rw [List.drop_left]
      simp [List.isPrefixOf, S]
    · intro j hj
      exact hdigit j hj []
  have hsep : indexOfSub (S " - ") (q ++ ' ' :: (name ++ Z)) =
      some (q.length + 1 + name.length) := by
    apply indexOfSub_eq_of
    · rw [htext, ← hAlen, List.drop_left, hZdef]
      simp [List.isPrefixOf, S]
    · intro j hj
      by_cases hj1 : j < q.length
      · exact hdigit j hj1 ['-', ' ']
      · by_cases hj2 : j = q.length
        · subst hj2
          rw [List.drop_left]
          rw [show (S " - " : JStr) = ' ' :: ['-', ' '] from rfl,
            List.isPrefixOf_cons₂]
          simp only [beq_self_eq_true, Bool.true_and]
          cases hname : name with
          | nil =>
            rw [hZdef]
            simp [List.isPrefixOf, S]
          | cons u t =>
            by_cases hu : u = '-'
            · subst hu
              cases ht : t with
              | nil =>
                exact absurd (by rw [hname, ht]; rfl) hnd
              | cons v t2 =>
                by_cases hv : v = ' '
                · subst hv
                  exact absurd (by rw [hname, ht]; exact ⟨t2, rfl⟩) hds
                · rw [List.cons_append, List.cons_append, List.isPrefixOf_cons₂,
                    List.isPrefixOf_cons₂]
                  simp only [Bool.and_eq_false_iff]
                  right
                  left
                  rw [beq_eq_false_iff_ne]
                  exact fun hh => hv hh.symm
            · rw [List.cons_append, List.isPrefixOf_cons₂]
              simp only [Bool.and_eq_false_iff]
              left
              rw [beq_eq_false_iff_ne]
              exact fun hh => hu hh.symm
        · have hj3 : q.length + 1 ≤ j := by omega
          set k := j - (q.length + 1) with hkdef
          have hjk : j = (q ++ [' ']).length + k := by
            simp
            omega
          have hk : k < name.length := by
            rw [hAlen] at *
            omega
          have hdropA : List.drop j (q ++ ' ' :: (name ++ Z)) = name.drop k ++ Z := by
            rw [show q ++ ' ' :: (name ++ Z) = (q ++ [' ']) ++ (name ++ Z) by simp,
              hjk, List.drop_append, List.drop_append_of_le_length (Nat.le_of_lt hk)]
          rw [hdropA]
          have hsuffix : name.drop k <:+ name := List.drop_suffix k name
          cases hd : name.drop k with
          | nil =>
            exact absurd (List.drop_eq_nil_iff.mp hd) (by omega)
          | cons u d1 =>
            cases hd1 : d1 with
            | nil =>
              rw [hZdef, show (S " - " : JStr) = [' ', '-', ' '] from rfl]
              simp [List.isPrefixOf, S]
            | cons v d2 =>
              cases hd2 : d2 with
              | nil =>
                by_cases huv : u = ' ' ∧ v = '-'
                · refine absurd ?_ hes
                  rw [show (S " -" : JStr) = [' ', '-'] from rfl]
                  rw [hd1, hd2, huv.1, huv.2] at hd
                  exact hd ▸ hsuffix
                · rw [hZdef, show (S " - " : JStr) = [' ', '-', ' '] from rfl]
                  simp only [List.cons_append, List.nil_append,
                    List.isPrefixOf_cons₂, Bool.and_eq_false_iff]
                  rcases (not_and_or.mp huv) with h | h
                  · left
                    rw [beq_eq_false_iff_ne]
                    exact fun hh => h hh.symm
                  · right
                    left
                    rw [beq_eq_false_iff_ne]
                    exact fun hh => h hh.symm
              | cons w d3 =>
                by_cases huvw : u = ' ' ∧ v = '-' ∧ w = ' '
                · refine absurd ?_ hdash
                  rw [show (S " - " : JStr) = [' ', '-', ' '] from rfl]
                  have hpre : [' ', '-', ' '] <+: name.drop k := by
                    rw [hd, hd1, hd2, huvw.1, huvw.2.1, huvw.2.2]
                    exact ⟨d3, rfl⟩
                  exact hpre.isInfix.trans hsuffix.isInfix
                · rw [show (S " - " : JStr) = [' ', '-', ' '] from rfl]
                  simp only [List.cons_append, List.isPrefixOf_cons₂,
                    Bool.and_eq_false_iff]
                  rcases (show ¬u = ' ' ∨ ¬v = '-' ∨ ¬w = ' ' by tauto) with h | h | h
                  · left
                    rw [beq_eq_false_iff_ne]
                    exact fun hh => h hh.symm
                  · right
                    left
                    rw [beq_eq_false_iff_ne]
                    exact fun hh => h hh.symm
                  · right
                    right
                    left
                    rw [beq_eq_false_iff_ne]
                    exact fun hh => h hh.symm
  clear_value q Z
  unfold parseNameFromText jsIndexOf
  rw [hspace, hsep]
  unfold jsSlice
  dsimp only
  rw [if_neg (by omega), if_neg (by omega)]
  rw [show ((q.length : Int) + 1).toNat = q.length + 1 by omega]
  rw [show (((q.length + 1 + name.length : Nat) : Int)).toNat =
    q.length + 1 + name.length by omega]
  rw [htext, ← hAlen, List.take_left, show q ++ ' ' :: name = (q ++ [' ']) ++ name by simp,
    show q.length + 1 = (q ++ [' ']).length by simp, List.drop_left]

theorem removeLoop_no_match (n : JStr) (l : List CartItem)
    (h : ∀ x ∈ l, x.name ≠ n) : removeLoop n l = l := by
  induction l with
  | nil => rfl
  | cons x xs ih =>
    have hx : x.name ≠ n := h x (List.mem_cons_self x xs)
    unfold removeLoop
    rw [if_neg hx, ih (fun y hy => h y (List.mem_cons_of_mem x hy))]

theorem removeLoop_nodup (n : JStr) (l : List CartItem)
    (h : (l.map CartItem.name).Nodup) :
    removeLoop n l = l.filter (fun x => decide (x.name ≠ n)) := by
  induction l with
  | nil => rfl
  | cons x xs ih =>
    rw [List.map_cons, List.nodup_cons] at h
    obtain ⟨hx, hxs⟩ := h
    by_cases hname : x.name = n
    · have hnomatch : ∀ y ∈ xs, y.name ≠ n := by
        intro y hy hyn
        have hmem : y.name ∈ List.map CartItem.name xs := List.mem_map_of_mem _ hy
        rw [hyn, ← hname] at hmem
        exact hx hmem
      cases xs with
      | nil =>
        unfold removeLoop
        simp [hname]
      | cons y ys =>
        have hy : y.name ≠ n := hnomatch y (List.mem_cons_self y ys)
        have hys : ∀ z ∈ ys, z.name ≠ n := fun z hz =>
          hnomatch z (List.mem_cons_of_mem y hz)
        unfold removeLoop
        simp only [hname, if_true]
        rw [removeLoop_no_match n ys hys]
        simp [List.filter_cons, hname, hy]
        exact (List.filter_eq_self.mpr (fun z hz => by simpa using hys z hz)).symm
    · unfold removeLoop
      rw [if_neg hname, ih hxs]
      simp [List.filter_cons, hname]

theorem parseDigits_append_digit (l : JStr) (c : Char) :
    parseDigits (l ++ [c]) = parseDigits l * 10 + (c.toNat - 48) := by
  unfold parseDigits
  rw [List.foldl_append]
  rfl

theorem parseDigits_natDigitsAux : ∀ fuel n, n < fuel →
    parseDigits (natDigitsAux fuel n) = n := by
  intro fuel
  induction fuel with
  | zero => intro n h; omega
  | succ f ih =>
    intro n h
    unfold natDigitsAux
    by_cases h10 : n < 10
    · rw [if_pos h10]
      show parseDigits [digitChar n] = n
      have hstep : parseDigits [digitChar n] = 0 * 10 + ((digitChar n).toNat - 48) := rfl
      rw [hstep, digitChar_toNat n h10]
      omega
    · rw [if_neg h10]
      rw [parseDigits_append_digit, ih (n / 10) (by omega),
        digitChar_toNat (n % 10) (Nat.mod_lt n (by norm_num))]
      omega

theorem parseDigits_natChars (n : Nat) : parseDigits (natChars n) = n :=
  parseDigits_natDigitsAux (n + 1) n (Nat.lt_succ_self n)

theorem parseDigits_padTwo (n : Nat) : parseDigits (padTwo n) = n := by
  unfold padTwo
  by_cases h : n < 10
  · rw [if_pos h]
    have hzero : parseDigits ('0' :: natChars n) = parseDigits (natChars n) := rfl
    rw [hzero, parseDigits_natChars]
  · rw [if_neg h, parseDigits_natChars]

theorem splitOnChar_no_sep (sep : Char) (l : JStr) (h : ∀ c ∈ l, c ≠ sep) :
    splitOnChar sep l = [l] := by
  induction l with
  | nil => rfl
  | cons c cs ih =>
    have hc : ¬(c = sep) := h c (List.mem_cons_self c cs)
    simp only [splitOnChar, ih (fun x hx => h x (List.mem_cons_of_mem c hx)),
      hc, if_false]

theorem splitOnChar_sep_append (sep : Char) (a b : JStr)
    (ha : ∀ c ∈ a, c ≠ sep) (hb : ∀ c ∈ b, c ≠ sep) :
    splitOnChar sep (a ++ sep :: b) = [a, b] := by
  induction a with
  | nil =>
    show splitOnChar sep (sep :: b) = [[], b]
    simp only [splitOnChar, splitOnChar_no_sep sep b hb, if_pos]
  | cons c cs ih =>
    have hc : ¬(c = sep) := ha c (List.mem_cons_self c cs)
    have ihr := ih (fun x hx => ha x (List.mem_cons_of_mem c hx))
    show splitOnChar sep (c :: (cs ++ sep :: b)) = [c :: cs, b]
    simp only [splitOnChar, ihr, hc, if_false]

theorem toFixed2_cents (m : Nat) :
    toFixed2 ((m : Rat) / 100) = natChars (m / 100) ++ '.' :: padTwo (m % 100) := by
  unfold toFixed2
  have h1 : ((m : Rat) / 100) * 100 + 1 / 2 = (m : Rat) + 1 / 2 := by
    rw [div_mul_cancel₀]
    norm_num
  rw [h1]
  have hhalf : ⌊(1 / 2 : Rat)⌋ = 0 := Int.floor_eq_iff.mpr (by norm_num)
  have h2 : ⌊(m : Rat) + 1 / 2⌋ = (m : Int) := by
    rw [Int.floor_nat_add, hhalf]
    omega
  rw [h2]
  simp

theorem parseFix2_toFixed2_cents (m : Nat) :
    parseFix2 (toFixed2 ((m : Rat) / 100)) = (m : Rat) / 100 := by
  rw [toFixed2_cents]
  unfold parseFix2
  have hpd : ∀ c ∈ padTwo (m % 100), c ≠ '.' := by
    intro c hc
    unfold padTwo at hc
    by_cases h : m % 100 < 10
    · rw [if_pos h] at hc
      rcases List.mem_cons.mp hc with hz | hc2
      · rw [hz]
        decide
      · exact natChars_ne_dot _ c hc2
    · rw [if_neg h] at hc
      exact natChars_ne_dot _ c hc
  rw [splitOnChar_sep_append '.' _ _ (natChars_ne_dot _) hpd]
  show (parseDigits (natChars (m / 100)) : Rat) +
      (parseDigits (padTwo (m % 100)) : Rat) / 100 = (m : Rat) / 100
  rw [parseDigits_natChars, parseDigits_padTwo]
  field_simp
  exact_mod_cast (by omega : (m / 100) * 100 + m % 100 = m)

/-- Counterexample for C4 as stated: the product name `"- Treat"` contains no
`" - "` substring and does not begin with a space — it satisfies the claim's
hypotheses — yet the rendered text of one unit at price 5 parses back to the
empty string instead of the name, and Remove deletes nothing from the stored
cart. -/
theorem remove_parses_wrong_name :
    (¬ (S " - ") <:+: (S "- Treat")) ∧
    (¬ (S " ") <+: (S "- Treat")) ∧
    parseNameFromText
        (liText ⟨S "- Treat", 5, [⟨S "Chocolate", S "Plain"⟩]⟩) ≠ S "- Treat" ∧
    (removeItem [⟨S "- Treat", 5, [⟨S "Chocolate", S "Plain"⟩]⟩]
        (renderItem ⟨S "- Treat", 5, [⟨S "Chocolate", S "Plain"⟩]⟩) 1 5).1 =
      [⟨S "- Treat", 5, [⟨S "Chocolate", S "Plain"⟩]⟩] := by
  have hli : liText (⟨S "- Treat", 5, [⟨S "Chocolate", S "Plain"⟩]⟩ : CartItem) =
      S "1 - Treat - $5.00XFlavor: Chocolate\nBox Decoration: Plain" := by
    unfold liText
    rw [show ((⟨S "- Treat", 5, [⟨S "Chocolate", S "Plain"⟩]⟩ : CartItem).price *
        (((⟨S "- Treat", 5, [⟨S "Chocolate", S "Plain"⟩]⟩ :
          CartItem).customizations.length : Nat) : Rat)) = ((500 : Nat) : Rat) / 100 by
      push_cast
      norm_num]
    rw [toFixed2_cents]
    decide
  refine ⟨by decide, by decide, ?_, ?_⟩
  · rw [hli]
    decide
  · show removeLoop
      (parseNameFromText (liText ⟨S "- Treat", 5, [⟨S "Chocolate", S "Plain"⟩]⟩))
      [⟨S "- Treat", 5, [⟨S "Chocolate", S "Plain"⟩]⟩] = _
    rw [hli]
    decide

/-- C4 (amended): for every stored cart with one line item per product name
(the C3 invariant) whose removed item's name contains no `" - "`, does not
begin with a space, does not begin with `"- "`, is not exactly `"-"`, and
does not end with `" -"`, Cart Remove parses the product name back out of the
rendered `"<qty> <name> - $<amount>"` text (inverting the render exactly),
deletes exactly the line item with that name from the stored cart, decrements
the displayed count by that item's customization count, and decrements the
displayed total by that item's displayed (parsed span) contribution — which
equals the exact contribution whenever the price is a whole number of
cents. -/
theorem cart_remove_exact (cart : List CartItem) (item : CartItem)
    (dispCount : Nat) (dispTotal : Rat)
    (hmem : item ∈ cart)
    (hnodup : (cart.map CartItem.name).Nodup)
    (hdash : ¬ (S " - ") <:+: item.name)
    (hsp : ¬ (S " ") <+: item.name)
    (hds : ¬ (S "- ") <+: item.name)
    (hnd : item.name ≠ S "-")
    (hes : ¬ (S " -") <:+ item.name) :
    removeItem cart (renderItem item) dispCount dispTotal =
      (cart.filter (fun x => decide (x.name ≠ item.name)),
       dispCount - item.customizations.length,
       dispTotal -
         parseFix2 (toFixed2 (item.price * (item.customizations.length : Rat)))) ∧
    (∀ k : Nat, item.price = (k : Rat) / 100 →
      parseFix2 (toFixed2 (item.price * (item.customizations.length : Rat))) =
        item.price * (item.customizations.length : Rat)) := by
  have hparse : parseNameFromText (liText item) = item.name := by
    have heq : liText item =
        natChars item.customizations.length ++ ' ' :: (item.name ++ (S " - $" ++
          (toFixed2 (item.price * (item.customizations.length : Rat)) ++
            (S "X" ++ customsText item.customizations)))) := by
      unfold liText
      simp [List.append_assoc]
    rw [heq]
    exact parse_renders_name item.customizations.length item.name
      (toFixed2 (item.price * (item.customizations.length : Rat)) ++
        (S "X" ++ customsText item.customizations)) hdash hds hnd hes
  constructor
  · show (removeLoop (parseNameFromText (liText item)) cart,
      dispCount - item.customizations.length,
      dispTotal -
        parseFix2 (toFixed2 (item.price * (item.customizations.length : Rat)))) = _
    rw [hparse, removeLoop_nodup item.name cart hnodup]
  · intro k hk
    rw [hk]
    rw [show ((k : Rat) / 100) * (item.customizations.length : Rat) =
      ((k * item.customizations.length : Nat) : Rat) / 100 by push_cast; ring]
    rw [parseFix2_toFixed2_cents]

/-- Witness for C4 (amended): removing the rendered Brownies line item (2
units at price 2) from a two-item cart deletes exactly that line item and
decrements count by 1 and total by 2.00. -/
theorem cart_remove_exact_inst :
    removeItem [⟨S "Brownies", 2, [⟨S "Chocolate", S "Bow"⟩]⟩, ⟨S "Cake", 10, []⟩]
        (renderItem ⟨S "Brownies", 2, [⟨S "Chocolate", S "Bow"⟩]⟩) 1 12 =
      ([⟨S "Cake", 10, []⟩], 0, 12 - 2) := by
  obtain ⟨h1, h2⟩ := cart_remove_exact
    [⟨S "Brownies", 2, [⟨S "Chocolate", S "Bow"⟩]⟩, ⟨S "Cake", 10, []⟩]
    ⟨S "Brownies", 2, [⟨S "Chocolate", S "Bow"⟩]⟩ 1 12
    (by decide) (by decide) (by decide) (by decide) (by decide) (by decide) (by decide)
  have hv := h2 200 (by norm_num)
  rw [h1, hv]
  refine congrArg₂ Prod.mk (by decide) ?_
  refine congrArg₂ Prod.mk (by decide) ?_
  show (12 : Rat) - 2 * ((1 : Nat) : Rat) = 12 - 2
  norm_num
